import Mathlib

/-!
Verification of the WeActStudio.SystemMonitor core against its
natural-language specification.  The Python source is shallowly embedded:
pure protocol encoders become Lean functions over `Int`/`Nat` byte lists,
the stateful pieces (rotation managers, serial reader loop, queue consumer,
shutdown polling loop) become explicit state-passing functions.  Machine
bytes are `Int` or `Nat` values reduced with `% 256` exactly where the
Python applies `& 0xFF`.
-/

/-! ## Byte-level helpers (Python `& 0xFF`, `>> 8`, `struct.pack "<H"`) -/

/-- `n & 0xFF` on a Python (unbounded, possibly negative) integer:
Euclidean remainder gives the same nonnegative result. -/
def lo8 (n : Int) : Int := n % 256

/-- `n >> 8 & 0xFF` on a Python integer (arithmetic shift = floor division). -/
def hi8 (n : Int) : Int := (n / 2 ^ 8) % 256

/-- `struct.pack "<H" n` for `0 ≤ n < 65536`: low byte first. -/
def packU16LE (n : Nat) : List Nat := [n % 256, n / 256 % 256]

/-- Little-endian unsigned 16-bit decode of two bytes. -/
def decodeU16LE (lo hi : Nat) : Nat := lo + 256 * hi

/-- Little-endian signed 16-bit decode (`struct.unpack "<h"`). -/
def decodeS16LE (lo hi : Nat) : Int :=
  let v : Int := (lo : Int) + 256 * (hi : Int)
  if v < 32768 then v else v - 65536

/-! ## Protocol command constants (`class Command` in weact_device_setting.py) -/

def CMD_WHO_AM_I : Int := 0x01
def CMD_SET_ORIENTATION : Int := 0x02
def CMD_SET_BRIGHTNESS : Int := 0x03
def CMD_FULL : Int := 0x04
def CMD_SET_BITMAP : Int := 0x05
def CMD_ENABLE_HUMITURE_REPORT : Int := 0x06
def CMD_FREE : Int := 0x07
def CMD_SET_UNCONNECT_BRIGHTNESS : Int := 0x10
def CMD_SET_UNCONNECT_ORIENTATION : Int := 0x11
def CMD_SET_BITMAP_WITH_FASTLZ : Int := 0x15
def CMD_SYSTEM_RESET : Int := 0x40
def CMD_SYSTEM_VERSION : Int := 0x42
def CMD_SYSTEM_SERIAL_NUM : Int := 0x43
def CMD_END : Int := 0x0A
def CMD_READ : Int := 0x80

/-- Outcome of a `set_device_*` call: either the validation guard returned
`False` before touching the port, or the listed frame was written. -/
inductive WriteResult where
  | rejected : WriteResult
  | wrote (frame : List Int) : WriteResult
deriving DecidableEq, Repr

/-! ## lcd_weact device setters (weact_device_setting.py) -/

/-- `lcd_weact.set_device_brightness(brightness, change_time_ms)`:
guards `brightness > 256 or brightness < 0` and
`change_time_ms > 5000 or change_time_ms < 0`, then writes
`[0x03, brightness & 0xFF, time & 0xFF, time >> 8 & 0xFF, 0x0A]`. -/
def set_device_brightness (brightness change_time_ms : Int) : WriteResult :=
  if brightness > 256 ∨ brightness < 0 then .rejected
  else if change_time_ms > 5000 ∨ change_time_ms < 0 then .rejected
  else .wrote [CMD_SET_BRIGHTNESS, lo8 brightness,
               lo8 change_time_ms, hi8 change_time_ms, CMD_END]

/-- `lcd_weact.set_device_unconnect_brightness(brightness)`:
guards `brightness > 256 or brightness < 0`, then writes
`[0x10, brightness & 0xFF, 0x0A]`. -/
def set_device_unconnect_brightness (brightness : Int) : WriteResult :=
  if brightness > 256 ∨ brightness < 0 then .rejected
  else .wrote [CMD_SET_UNCONNECT_BRIGHTNESS, lo8 brightness, CMD_END]

/-- `lcd_weact.set_device_humiture_report_time(time_ms)`:
guards `time_ms > 0xFFFF or (time_ms < 500 and time_ms != 0)`, then writes
`[0x06, time & 0xFF, time >> 8 & 0xFF, 0x0A]`. -/
def set_device_humiture_report_time (time_ms : Int) : WriteResult :=
  if time_ms > 0xFFFF ∨ (time_ms < 500 ∧ time_ms ≠ 0) then .rejected
  else .wrote [CMD_ENABLE_HUMITURE_REPORT, lo8 time_ms, hi8 time_ms, CMD_END]

/-- Stored effective size of the `lcd_weact` handle (`self.width`,
`self.height`), mutated by `set_device_orientation`. -/
structure DeviceDims where
  width : Int
  height : Int
deriving DecidableEq, Repr

/-- `lcd_weact.set_device_orientation(orientation)` for a given device
`type` (0 = 320x480 panel, otherwise 80x160): guards `orientation > 4 or
orientation < 0`, writes `[0x02, orientation & 0xFF, 0x0A]`, then stores
the portrait size when `orientation <= 1` and the swapped size otherwise. -/
def set_device_orientation (type_ : Nat) (orientation : Int) :
    Option (List Int × DeviceDims) :=
  if orientation > 4 ∨ orientation < 0 then none
  else
    let frame := [CMD_SET_ORIENTATION, lo8 orientation, CMD_END]
    let dims : DeviceDims :=
      if orientation ≤ 1 then
        if type_ = 0 then ⟨320, 480⟩ else ⟨80, 160⟩
      else
        if type_ = 0 then ⟨480, 320⟩ else ⟨160, 80⟩
    some (frame, dims)

/-! ## LcdComm derived width/height (library/lcd/lcd_comm.py) -/

/-- `Orientation` enum of lcd_comm.py (renamed: Mathlib already has `Orientation`). -/
inductive LcdOrientation where
  | PORTRAIT
  | LANDSCAPE
  | REVERSE_PORTRAIT
  | REVERSE_LANDSCAPE
deriving DecidableEq, Repr

/-- The fields of `LcdComm` that determine the effective size: the current
orientation and the native (portrait) size. -/
structure LcdCommState where
  orientation : LcdOrientation
  display_width : Nat
  display_height : Nat
deriving DecidableEq, Repr

/-- `LcdComm.get_width`. -/
def LcdComm.get_width (s : LcdCommState) : Nat :=
  if s.orientation = .PORTRAIT ∨ s.orientation = .REVERSE_PORTRAIT then
    s.display_width
  else
    s.display_height

/-- `LcdComm.get_height`. -/
def LcdComm.get_height (s : LcdCommState) : Nat :=
  if s.orientation = .PORTRAIT ∨ s.orientation = .REVERSE_PORTRAIT then
    s.display_height
  else
    s.display_width

/-! ## Rotation managers (library/dynamic_images.py, library/dynamic_texts.py)

`dynamic_images.handle` and `dynamic_texts.handle` implement the same
cursor algorithm (they differ only in the rendering payload), so one
embedding covers both.  A theme is the list of candidate item dicts in
iteration order, reduced to the fields the algorithm reads:
`(ID, INTERVAL_100mS)`.  Items without a nonnegative `ID` never match the
`Nat` cursor and never lower the minimum, so they are dropped from the
model list. -/

/-- Mutable class state of `dynamic_images` / `dynamic_texts`. -/
structure RotState where
  id_now : Nat
  id_min : Nat
  time_now : Nat
  time_out : Nat
  /-- `first_image_dict` / `first_text_dict`: the item dict recorded the
  last time the minimum id was displayed (the theme is immutable between
  `init` and `handle`, so recording the `(id, interval)` pair is the same
  as recording the dict key). -/
  first_dict : Option (Nat × Nat)
deriving DecidableEq, Repr

/-- `init`: scan the theme for the minimum id (accumulator starts at 255,
as in the source) and point the cursor at it. -/
def rot_init (theme : List (Nat × Nat)) : RotState :=
  let id_min := theme.foldl (fun m p => if p.1 < m then p.1 else m) 255
  { id_now := id_min, id_min := id_min, time_now := 0, time_out := 0,
    first_dict := none }

/-- The `for image in cls.theme_data: ... if id_t == cls.id_now: break`
scan: first item whose id equals the cursor. -/
def rot_find (theme : List (Nat × Nat)) (i : Nat) : Option (Nat × Nat) :=
  match theme with
  | [] => none
  | p :: rest => if p.1 = i then some p else rot_find rest i

/-- The elapsed-tick body of `handle` after the overload check: select the
item to display and move the cursor.  Returns the displayed `(id,
interval)` (`none` when nothing is displayed) and the new state. -/
def rot_pick (theme : List (Nat × Nat)) (s : RotState) :
    Option (Nat × Nat) × RotState :=
  match rot_find theme s.id_now with
  | some item =>
      let first' := if s.id_now = s.id_min then some item else s.first_dict
      let id1 := s.id_now + 1
      let id2 := if id1 > 255 then s.id_min else id1
      (some item, { s with time_out := item.2, id_now := id2,
                           first_dict := first' })
  | none =>
      match s.first_dict with
      | none => (none, s)
      | some item =>
          (some item, { s with time_out := item.2, id_now := s.id_min + 1 })

/-- One call of `handle` (assuming `theme_data_ok`): bump the tick counter;
when the dwell has elapsed, reset it, skip on queue overload
(`qsize > 50`), otherwise pick and display. -/
def rot_handle (theme : List (Nat × Nat)) (qsize : Nat) (s : RotState) :
    Option (Nat × Nat) × RotState :=
  let s1 := { s with time_now := s.time_now + 1 }
  if s1.time_now ≥ s1.time_out then
    let s2 := { s1 with time_now := 0 }
    if qsize > 50 then (none, s2)
    else rot_pick theme s2
  else (none, s1)

/-- `n` consecutive `handle` calls from state `s`, collecting the displayed
ids in order. -/
def rot_run (theme : List (Nat × Nat)) (qsize : Nat) (s : RotState) :
    Nat → List Nat × RotState
  | 0 => ([], s)
  | n + 1 =>
      let (ds, s') := rot_run theme qsize s n
      match rot_handle theme qsize s' with
      | (some it, s'') => (ds ++ [it.1], s'')
      | (none, s'') => (ds, s'')

/-- `n` consecutive elapsed-tick advances (`rot_pick`) from `init`,
collecting the displayed ids in order. -/
def rot_advances (theme : List (Nat × Nat)) : Nat → List Nat × RotState
  | 0 => ([], rot_init theme)
  | n + 1 =>
      let (ds, s) := rot_advances theme n
      match rot_pick theme s with
      | (some it, s') => (ds ++ [it.1], s')
      | (none, s') => (ds, s')

/-- A theme whose candidate ids are the contiguous range
`id_min, id_min+1, …, id_min+k`, with intervals given by `f`. -/
def contig_theme (m k : Nat) (f : Nat → Nat) : List (Nat × Nat) :=
  (List.range (k + 1)).map (fun i => (m + i, f i))

/-- Modelled from the spec (§4.6 / §8, for the refinement comparison in
C2): "advance to the next id in ascending order (wrapping to the
minimum)" — the smallest existing id strictly greater than the current
one, or the minimum id when none is greater. -/
def spec_next_id (ids : List Nat) (cur : Nat) : Option Nat :=
  match (ids.filter (fun i => cur < i)).min? with
  | some nxt => some nxt
  | none => ids.min?

/-! ## Photo album (library/photo_album.py) -/

/-- Mutable class state of `photo_album` (pictures are opaque; paths are
modelled as `Nat` tokens). -/
structure PAState where
  theme_data_ok : Bool
  first_run : Bool
  auto_refresh : Bool
  show_sequential : Bool
  theme_pic_list : List Nat
  theme_pic_id : Nat
deriving DecidableEq, Repr

/-- One call of `photo_album.handle`.  `rescan` is what `list_theme_pic()`
would return this tick (used only under `AUTO_REFRESH`); `rand_pick`
resolves `random.choice` to an index.  Returns the displayed picture
(`none` = nothing rendered/enqueued) and the new state.  (The sequential
index read is total in Python because the wraparound keeps
`theme_pic_id < len`; a list shrunk by `AUTO_REFRESH` would raise there —
modelled with `getD`, unreachable in the claims below.) -/
def photo_album_handle (qsize : Nat) (rescan : List Nat) (rand_pick : Nat)
    (s : PAState) : Option Nat × PAState :=
  if s.theme_data_ok then
    if qsize > 50 ∧ s.first_run = false then (none, s)
    else
      let s1 := { s with first_run := false }
      let s2 := if s1.auto_refresh then { s1 with theme_pic_list := rescan }
                else s1
      if s2.theme_pic_list.length = 0 then
        (none, { s2 with theme_pic_id := 0 })
      else if s2.show_sequential then
        let pic := s2.theme_pic_list.getD s2.theme_pic_id 0
        let id1 := s2.theme_pic_id + 1
        let id2 := if id1 > s2.theme_pic_list.length - 1 then 0 else id1
        (some pic, { s2 with theme_pic_id := id2 })
      else
        (some (s2.theme_pic_list.getD
                 (rand_pick % s2.theme_pic_list.length) 0), s2)
  else (none, s)

/-! ## Update queue and consumer (library/scheduler.py `QueueHandler`,
library/config.py `update_queue = queue.Queue()`) -/

/-- The FIFO `queue.Queue` holding deferred transfer jobs; jobs are opaque
`(f, args)` closures, abstracted to `α`. -/
structure FifoQueue (α : Type) where
  items : List α
deriving DecidableEq, Repr

/-- `queue.Queue.put`. -/
def FifoQueue.put {α} (q : FifoQueue α) (x : α) : FifoQueue α :=
  ⟨q.items ++ [x]⟩

/-- `queue.Queue.qsize`. -/
def FifoQueue.qsize {α} (q : FifoQueue α) : Nat := q.items.length

/-- `queue.Queue.empty`. -/
def FifoQueue.isEmptyQ {α} (q : FifoQueue α) : Bool := q.items.isEmpty

/-- `queue.Queue.get` when the queue is nonempty (a blocking get never
returns on an empty queue). -/
def FifoQueue.take? {α} (q : FifoQueue α) : Option (α × FifoQueue α) :=
  match q.items with
  | [] => none
  | x :: rest => some (x, ⟨rest⟩)

/-- The `STOPPING` drain branch of `QueueHandler`:
`while not empty: f, args = get(); f(*args)`.  `executed` is the trace of
jobs run so far, in execution order. -/
def queue_handler_drain {α} (q : FifoQueue α) (executed : List α) :
    List α × FifoQueue α :=
  match q with
  | ⟨[]⟩ => (executed, ⟨[]⟩)
  | ⟨x :: rest⟩ => queue_handler_drain ⟨rest⟩ (executed ++ [x])

/-- One invocation of `QueueHandler`, as a function of the global
`STOPPING` flag: when stopping, drain without blocking; otherwise execute
the first queued action (a blocking `get` on an empty queue executes
nothing within this step).  Returns the executed-job trace and the queue
left behind. -/
def QueueHandlerFn {α} (stopping : Bool) (q : FifoQueue α) :
    List α × FifoQueue α :=
  if stopping then queue_handler_drain q []
  else
    match q.take? with
    | some (x, q') => ([x], q')
    | none => ([], q)

/-! ## Serial reader loop (weact_device_setting.py `receive_data`) -/

/-- The `lcd_weact` fields the reader loop touches. -/
structure RxState where
  temperature : Nat
  humidness : Int
  serial_rx_cmd : Option Nat
  serial_rx_length : Nat
  serial_rx_data : List Nat
  serial_rx_result : Int
deriving DecidableEq, Repr

/-- `ser.readline()`: bytes up to and including the first `0x0A`, or the
whole pending stream when no newline arrives before the timeout. -/
def readline_bytes (stream : List Nat) : List Nat × List Nat :=
  match stream.findIdx? (fun b => b == 10) with
  | some i => (stream.take (i + 1), stream.drop (i + 1))
  | none => (stream, [])

/-- One iteration of the `receive_data` loop body over the pending input
bytes (a `ser.read(n)` that times out returns the fewer-than-`n` bytes
available).  Returns the new state and the unconsumed stream; the loop
then continues — the function is total, no branch escapes the loop. -/
def receive_data_iter (st : RxState) (stream : List Nat) :
    RxState × List Nat :=
  match stream with
  | [] => (st, [])
  | cmd :: rest =>
    if cmd = 0x86 then
      -- CMD_ENABLE_HUMITURE_REPORT | CMD_READ
      let data := rest.take 5
      let rest' := rest.drop 5
      if data.length = 5 ∧ data.getD 4 0 = 10 then
        ({ st with
             temperature := decodeU16LE (data.getD 0 0) (data.getD 1 0),
             humidness := decodeS16LE (data.getD 2 0) (data.getD 3 0) },
         rest')
      else (st, rest')
    else
      match st.serial_rx_cmd with
      | none => (st, rest)
      | some c =>
        if cmd = c then
          if st.serial_rx_length ≠ 0 then
            let length := st.serial_rx_length - 1
            let data := rest.take length
            let rest' := rest.drop length
            if data.length = length then
              if data.getD (length - 1) 0 = 10 then
                ({ st with serial_rx_data := data, serial_rx_result := 1,
                           serial_rx_cmd := none }, rest')
              else
                ({ st with serial_rx_result := -1, serial_rx_cmd := none },
                 rest')
            else
              ({ st with serial_rx_result := -1, serial_rx_cmd := none },
               rest')
          else
            let (data, rest') := readline_bytes rest
            if data.length > 1 then
              if data.getD (data.length - 1) 0 = 10 then
                ({ st with serial_rx_data := data, serial_rx_result := 1,
                           serial_rx_cmd := none }, rest')
              else
                ({ st with serial_rx_result := -1, serial_rx_cmd := none },
                 rest')
            else
              ({ st with serial_rx_result := -1, serial_rx_cmd := none },
               rest')
        else (st, rest)

/-! ## Shutdown wait loop (main.py `wait_for_empty_queue`, `clean`) -/

/-- What one poll of the loop condition observes: `is_queue_empty()`,
`display.lcd.lcd_serial != None`, `lcd_serial.is_open`. -/
structure PollObs where
  queue_is_empty : Bool
  serial_present : Bool
  serial_is_open : Bool

/-- The `while` condition of `wait_for_empty_queue` (minus the time
bound). -/
def wait_cond (o : PollObs) : Bool :=
  !o.queue_is_empty && o.serial_present && o.serial_is_open

/-- The polling loop, in decisecond steps (the source sleeps 0.1 s and adds
0.1 to `wait_time` per iteration): observation `obs v` is what the `v`-th
poll sees.  Returns the final wait in deciseconds. -/
def wait_loop (obs : Nat → PollObs) (timeout_ds : Nat) (w : Nat) : Nat :=
  if h : w < timeout_ds ∧ wait_cond (obs w) = true then
    wait_loop obs timeout_ds (w + 1)
  else w
termination_by timeout_ds - w
decreasing_by omega

/-- `wait_for_empty_queue(timeout)`: poll from wait 0 against the bound
`timeout` seconds = `10 * timeout` deciseconds. -/
def wait_for_empty_queue (obs : Nat → PollObs) (timeout_s : Nat) : Nat :=
  wait_loop obs (10 * timeout_s) 0

/-- `clean()`: sets `scheduler.STOPPING = True`, then calls
`wait_for_empty_queue(5)`.  Returns the flag value it leaves behind and
the deciseconds waited. -/
def clean_shutdown (obs : Nat → PollObs) : Bool × Nat :=
  (true, wait_for_empty_queue obs 5)

/-! ## RGB565 packing and bitmap streaming (weact_device_setting.py
`image_to_RGB565`, `chunked`, `show_bitmap`) -/

/-- One pixel packed to 16-bit 5/6/5:
`(r >> 3) << 11 | (g >> 2) << 5 | (b >> 3)`. -/
def rgb565 (r g b : Nat) : Nat :=
  ((r >>> 3) <<< 11) ||| ((g >>> 2) <<< 5) ||| (b >>> 3)

/-- `image_to_RGB565(image, endianness)`: the image is a row-major list of
rows of `(r, g, b)` channel bytes (numpy `reshape` flattens C-order =
row-major); each packed value is serialized low byte first when
`little`. -/
def image_to_RGB565 (img : List (List (Nat × Nat × Nat))) (little : Bool) :
    List Nat :=
  ((img.flatten).map (fun p =>
      let v := rgb565 p.1 p.2.1 p.2.2
      if little then packU16LE v else (packU16LE v).reverse)).flatten

/-- `chunked(data, chunk_size)`: successive `data[i : i+chunk_size]`
slices (`range(0, len, size)`; the source never passes size 0, which
Python would reject). -/
def chunked (data : List Nat) (chunk_size : Nat) : List (List Nat) :=
  if h : chunk_size = 0 ∨ data = [] then []
  else data.take chunk_size :: chunked (data.drop chunk_size) chunk_size
termination_by data.length
decreasing_by
  push_neg at h
  obtain ⟨h1, h2⟩ := h
  cases data with
  | nil => exact absurd rfl h2
  | cons a l =>
    simp only [List.length_drop, List.length_cons]
    omega

/-- The 10-byte `SET_BITMAP` header frame (`byteBuffer` in
`show_bitmap`). -/
def bitmap_header (cmd xs ys xe ye : Nat) : List Nat :=
  [cmd, xs % 256, xs / 256 % 256, ys % 256, ys / 256 % 256,
   xe % 256, xe / 256 % 256, ye % 256, ye / 256 % 256, 10]

/-- One compressed chunk on the wire:
`struct.pack("<HH", len(chunk), len(compressed[4:])) + compressed[4:]` —
the fastlz output's own 4-byte prefix is stripped and replaced by the
`(uncompressed_len, compressed_len)` header. -/
def fastlz_chunk_frame (compress : List Nat → List Nat)
    (chunk : List Nat) : List Nat :=
  packU16LE chunk.length ++ packU16LE ((compress chunk).drop 4).length ++
    (compress chunk).drop 4

/-- `show_bitmap(xs, ys, bitmap, use_fastlz)` against a device of stored
effective size `dev_width × dev_height`: `none` models `return False` on an
oversized image; otherwise the ordered list of `write_cmd` payloads.  The
compressor (`fastlz.compress`, an external C library) is a parameter. -/
def show_bitmap (dev_width dev_height xs ys : Nat)
    (img : List (List (Nat × Nat × Nat))) (use_fastlz : Bool)
    (compress : List Nat → List Nat) : Option (List (List Nat)) :=
  let image_height := img.length
  let image_width := (img.headD []).length
  if image_height > dev_height ∨ image_width > dev_width then none
  else
    let xe := image_width + xs - 1
    let ye := image_height + ys - 1
    let line_to_send_size := dev_width * 4
    let rgb565le := image_to_RGB565 img true
    if use_fastlz then
      some (bitmap_header 0x15 xs ys xe ye ::
            (chunked rgb565le line_to_send_size).map
              (fastlz_chunk_frame compress))
    else
      some (bitmap_header 0x05 xs ys xe ye ::
            chunked rgb565le line_to_send_size)

/-! ## Claims C3, C10, C6 -/

/-- **C3.** The claim says `set_device_brightness` and
`set_device_unconnect_brightness` reject every brightness outside [0,255],
in particular 256.  The code's guard is `brightness > 256 or brightness < 0`,
so 256 passes validation and the frame is written with payload byte
`256 & 0xFF = 0`: the code accepts the out-of-range value the spec flags as
a logic error. -/
theorem C3_brightness_256_accepted_by_code :
    set_device_brightness 256 0 =
      .wrote [CMD_SET_BRIGHTNESS, 0, 0, 0, CMD_END] ∧
    set_device_unconnect_brightness 256 =
      .wrote [CMD_SET_UNCONNECT_BRIGHTNESS, 0, CMD_END] := by
  refine ⟨?_, ?_⟩ <;> rfl

/-- **C10.** `set_device_humiture_report_time(time_ms)` returns `False`
without writing for `time_ms > 65535` and for `0 < time_ms < 500`; for
`time_ms = 0` and for `time_ms ∈ [500, 65535]` it writes exactly
`[0x06, time_ms & 0xFF, (time_ms >> 8) & 0xFF, 0x0A]`. -/
theorem C10_humiture_report_time (t : Int) :
    ((t > 65535 ∨ (0 < t ∧ t < 500)) →
      set_device_humiture_report_time t = .rejected) ∧
    ((t = 0 ∨ (500 ≤ t ∧ t ≤ 65535)) →
      set_device_humiture_report_time t =
        .wrote [CMD_ENABLE_HUMITURE_REPORT, lo8 t, hi8 t, CMD_END]) := by
  constructor
  · intro h
    unfold set_device_humiture_report_time
    rw [if_pos]
    omega
  · intro h
    unfold set_device_humiture_report_time
    rw [if_neg]
    omega

/-- Witness for C10: 300 ms is silently refused, 1000 ms is framed. -/
theorem C10_humiture_report_time_witness :
    set_device_humiture_report_time 300 = .rejected ∧
    set_device_humiture_report_time 1000 =
      .wrote [CMD_ENABLE_HUMITURE_REPORT, lo8 1000, hi8 1000, CMD_END] :=
  ⟨(C10_humiture_report_time 300).1 (by omega),
   (C10_humiture_report_time 1000).2 (by omega)⟩

/-- **C6.** Effective width/height are derived from orientation: on the
320x480 panel, any landscape-family orientation reports (480,320) and any
portrait-family orientation reports (320,480) — both in the derived
`LcdComm.get_width`/`get_height` and in the `lcd_weact` setter, whose
post-state depends only on the new orientation, so landscape-then-portrait
restores (320,480) exactly (composition is the identity on dimensions). -/
theorem C6_orientation_toggle (o q : LcdOrientation) (oi qi : Int)
    (ho : o = .LANDSCAPE ∨ o = .REVERSE_LANDSCAPE)
    (hq : q = .PORTRAIT ∨ q = .REVERSE_PORTRAIT)
    (hoi : oi = 2 ∨ oi = 3) (hqi : qi = 0 ∨ qi = 1) :
    (LcdComm.get_width ⟨o, 320, 480⟩ = 480 ∧
     LcdComm.get_height ⟨o, 320, 480⟩ = 320) ∧
    (LcdComm.get_width ⟨q, 320, 480⟩ = 320 ∧
     LcdComm.get_height ⟨q, 320, 480⟩ = 480) ∧
    (set_device_orientation 0 oi =
       some ([CMD_SET_ORIENTATION, oi, CMD_END], ⟨480, 320⟩) ∧
     set_device_orientation 0 qi =
       some ([CMD_SET_ORIENTATION, qi, CMD_END], ⟨320, 480⟩)) := by
  rcases ho with rfl | rfl <;> rcases hq with rfl | rfl <;>
    rcases hoi with rfl | rfl <;> rcases hqi with rfl | rfl <;>
    exact ⟨⟨rfl, rfl⟩, ⟨rfl, rfl⟩, rfl, rfl⟩

/-- Witness for C6 at LANDSCAPE (wire value 2) and PORTRAIT (wire value 0). -/
theorem C6_orientation_toggle_witness :
    (LcdComm.get_width ⟨.LANDSCAPE, 320, 480⟩ = 480 ∧
     LcdComm.get_height ⟨.LANDSCAPE, 320, 480⟩ = 320) ∧
    (LcdComm.get_width ⟨.PORTRAIT, 320, 480⟩ = 320 ∧
     LcdComm.get_height ⟨.PORTRAIT, 320, 480⟩ = 480) ∧
    (set_device_orientation 0 2 =
       some ([CMD_SET_ORIENTATION, 2, CMD_END], ⟨480, 320⟩) ∧
     set_device_orientation 0 0 =
       some ([CMD_SET_ORIENTATION, 0, CMD_END], ⟨320, 480⟩)) :=
  C6_orientation_toggle .LANDSCAPE .PORTRAIT 2 0
    (Or.inl rfl) (Or.inl rfl) (Or.inl rfl) (Or.inl rfl)

/-! ## Claims C1, C2 (counterexample), C7 -/

/-- The drain loop executes exactly the queued jobs, in order, appended to
the trace accumulated so far, and leaves the queue empty. -/
theorem queue_handler_drain_eq {α} (l e : List α) :
    queue_handler_drain ⟨l⟩ e = (e ++ l, ⟨[]⟩) := by
  induction l generalizing e with
  | nil => simp [queue_handler_drain]
  | cons x r ih => simp [queue_handler_drain, ih]

/-- **C1.** Once `STOPPING` is set, `QueueHandler` drains without
blocking: its execution trace is exactly the list of jobs queued at that
moment, in FIFO order — each executed exactly once — and the queue is
empty when it exits; no enqueued job is lost. -/
theorem C1_stopping_drains_fifo {α} (q : FifoQueue α) :
    QueueHandlerFn true q = (q.items, ⟨[]⟩) := by
  cases q with
  | mk items =>
    simp [QueueHandlerFn, queue_handler_drain_eq]

/-- **C2, counterexample.** The claim says a candidate id set `{2,5,9}`
(intervals 10/20/5 deciseconds, the spec's own example) is visited
cyclically in ascending order `2,5,9,2,…`.  On the code, 35 ticks from
`init` display `[2,2,2,2]`: after displaying id 2 the cursor moves to 3,
which does not exist, so the handler falls back to the first (minimum)
item and resets the cursor to `id_min + 1 = 3` again — id 5 (the spec's
next id after 2) and id 9 are never visited. -/
theorem C2_counterexample :
    (rot_run [(2, 10), (5, 20), (9, 5)] 0
        (rot_init [(2, 10), (5, 20), (9, 5)]) 35).1 = [2, 2, 2, 2] ∧
    spec_next_id [2, 5, 9] 2 = some 5 ∧
    ((rot_run [(2, 10), (5, 20), (9, 5)] 0
        (rot_init [(2, 10), (5, 20), (9, 5)]) 35).1).count 5 = 0 := by
  decide

/-- **C7, counterexample.** The claim says every rotation manager skips
the tick whenever the queue depth exceeds 50.  `photo_album.handle`
exempts its very first tick (`first_run`): with depth 51 it still renders
and enqueues a picture. -/
theorem C7_counterexample :
    (photo_album_handle 51 []  0
        ⟨true, true, false, true, [7], 0⟩).1 = some 7 := rfl

/-- **C7, amended.** With queue depth above the threshold (> 50), a
dynamic-images/texts tick renders and enqueues nothing (whether or not the
dwell has elapsed), and a photo-album tick renders and enqueues nothing
provided it is not the first tick after `init`; all handlers return
normally. -/
theorem C7_overload_skip (qsize : Nat) (h : qsize > 50) :
    (∀ theme s, (rot_handle theme qsize s).1 = none) ∧
    (∀ rescan rand_pick s, s.first_run = false →
        (photo_album_handle qsize rescan rand_pick s).1 = none) := by
  constructor
  · intro theme s
    simp only [rot_handle]
    split
    · simp [h]
    · rfl
  · intro rescan rand_pick s hf
    simp only [photo_album_handle]
    split
    · simp [h, hf]
    · rfl

/-- Witness for C7: depth 51, an elapsed dynamic tick and a
non-first-run photo-album tick both skip. -/
theorem C7_overload_skip_witness :
    (rot_handle [(2, 10)] 51 ⟨2, 2, 9, 10, none⟩).1 = none ∧
    (photo_album_handle 51 [] 0
        ⟨true, false, false, true, [7], 0⟩).1 = none :=
  ⟨(C7_overload_skip 51 (by decide)).1 [(2, 10)] ⟨2, 2, 9, 10, none⟩,
   (C7_overload_skip 51 (by decide)).2 [] 0
     ⟨true, false, false, true, [7], 0⟩ rfl⟩

/-! ## Claims C8, C9 -/

/-- **C8.** On reading opcode `0x86` (`0x06 | 0x80`), the reader consumes
5 further bytes; exactly when the 5th is the terminator `0x0A` it stores
the first four bytes as the little-endian pair (temperature unsigned,
humidness signed).  A malformed frame — fewer than 5 bytes available
(read timeout) or a wrong terminator — leaves both stored values
unchanged, and the iteration returns normally so the loop continues. -/
theorem C8_sensor_frame (st : RxState) (b0 b1 b2 b3 b4 : Nat)
    (rest : List Nat) :
    (receive_data_iter st (0x86 :: b0 :: b1 :: b2 :: b3 :: b4 :: rest) =
      (if b4 = 10 then
        { st with temperature := decodeU16LE b0 b1,
                  humidness := decodeS16LE b2 b3 }
       else st, rest)) ∧
    (∀ short : List Nat, short.length < 5 →
        receive_data_iter st (0x86 :: short) = (st, [])) := by
  constructor
  · simp only [receive_data_iter, List.take_succ_cons, List.take_zero,
      List.drop_succ_cons, List.drop_zero, if_pos rfl]
    by_cases hb : b4 = 10
    · simp [hb]
    · simp [hb]
  · intro short hshort
    have hcond : ¬((short.take 5).length = 5 ∧
        (short.take 5).getD 4 0 = 10) := by
      rw [List.length_take]
      omega
    have hdrop : short.drop 5 = [] := List.drop_eq_nil_of_le (by omega)
    simp [receive_data_iter, hcond, hdrop]
    intro h1 _
    exact absurd h1 (by omega)

/-- Witness for C8: a good frame updates to (513, 1027); a 2-byte
truncated frame leaves (7, 8) unchanged. -/
theorem C8_sensor_frame_witness :
    receive_data_iter ⟨0, 0, none, 0, [], 0⟩ [0x86, 1, 2, 3, 4, 10] =
      (⟨513, 1027, none, 0, [], 0⟩, []) ∧
    receive_data_iter ⟨7, 8, none, 0, [], 0⟩ [0x86, 1, 2] =
      (⟨7, 8, none, 0, [], 0⟩, []) := by
  constructor
  · have h := (C8_sensor_frame ⟨0, 0, none, 0, [], 0⟩ 1 2 3 4 10 []).1
    simpa [decodeU16LE, decodeS16LE] using h
  · exact (C8_sensor_frame ⟨7, 8, none, 0, [], 0⟩ 0 0 0 0 0 []).2 [1, 2]
      (by decide)

/-- Every exit of the polling loop is correct: the wait never exceeds the
decisecond bound, every poll strictly before the exit saw the continue
condition, and an exit before the bound saw it fail. -/
theorem wait_loop_spec (obs : Nat → PollObs) (tds : Nat) :
    ∀ n w, tds - w ≤ n →
      w ≤ wait_loop obs tds w ∧
      (w ≤ tds → wait_loop obs tds w ≤ tds) ∧
      (∀ v, w ≤ v → v < wait_loop obs tds w → wait_cond (obs v) = true) ∧
      (wait_loop obs tds w < tds →
        wait_cond (obs (wait_loop obs tds w)) = false) := by
  intro n
  induction n with
  | zero =>
    intro w hn
    rw [wait_loop]
    rw [dif_neg (by omega)]
    exact ⟨le_refl _, fun h => h, fun v hv1 hv2 => absurd hv2 (by omega),
      fun hlt => absurd hlt (by omega)⟩
  | succ n ih =>
    intro w hn
    rw [wait_loop]
    by_cases hc : w < tds ∧ wait_cond (obs w) = true
    · rw [dif_pos hc]
      have H := ih (w + 1) (by omega)
      refine ⟨by omega, fun _ => H.2.1 (by omega), ?_, H.2.2.2⟩
      intro v hv1 hv2
      rcases Nat.eq_or_lt_of_le hv1 with rfl | hlt
      · exact hc.2
      · exact H.2.2.1 v (by omega) hv2
    · rw [dif_neg hc]
      refine ⟨le_refl _, fun h => h, fun v hv1 hv2 => absurd hv2 (by omega),
        fun hlt => ?_⟩
      rcases Bool.eq_false_or_eq_true (wait_cond (obs w)) with h | h
      · exact absurd ⟨hlt, h⟩ hc
      · exact h

/-- **C9.** `wait_for_empty_queue(timeout)` always terminates within the
bound: the wait (in 100 ms polling steps) never exceeds `10 * timeout`;
the loop runs exactly while the queue is nonempty, the serial handle
present and open; if it stops before the bound, the first such poll
already saw the queue empty or the handle absent/closed.  `clean()` sets
the stopping flag to `True` and then waits with the default 5-second
bound. -/
theorem C9_wait_bounded (obs : Nat → PollObs) (timeout_s : Nat) :
    wait_for_empty_queue obs timeout_s ≤ 10 * timeout_s ∧
    (∀ v, v < wait_for_empty_queue obs timeout_s →
        wait_cond (obs v) = true) ∧
    (wait_for_empty_queue obs timeout_s < 10 * timeout_s →
        wait_cond (obs (wait_for_empty_queue obs timeout_s)) = false) ∧
    clean_shutdown obs = (true, wait_for_empty_queue obs 5) := by
  have H := wait_loop_spec obs (10 * timeout_s) (10 * timeout_s) 0
    (by omega)
  exact ⟨H.2.1 (by omega),
    fun v hv => H.2.2.1 v (by omega) hv,
    H.2.2.2, rfl⟩

/-- Witness for C9: under an observation where the queue reports empty
from the third poll on, the loop exits at wait 2 (&lt; 50) having seen the
condition fail there. -/
theorem C9_wait_bounded_witness :
    wait_for_empty_queue (fun v => ⟨decide (2 ≤ v), true, true⟩) 5 ≤ 50 ∧
    wait_cond ((fun v => (⟨decide (2 ≤ v), true, true⟩ : PollObs))
        (wait_for_empty_queue (fun v => ⟨decide (2 ≤ v), true, true⟩) 5))
      = false := by
  have H := C9_wait_bounded (fun v => (⟨decide (2 ≤ v), true, true⟩ :
    PollObs)) 5
  refine ⟨H.1, H.2.2.1 ?_⟩
  have h2 : wait_loop (fun v => (⟨decide (2 ≤ v), true, true⟩ :
      PollObs)) 50 2 = 2 := by
    rw [wait_loop, dif_neg]
    intro hcc
    exact absurd hcc.2 (by decide)
  show wait_loop _ 50 0 < 50
  rw [wait_loop, dif_pos ⟨by omega, by decide⟩,
      wait_loop, dif_pos ⟨by omega, by decide⟩, h2]
  omega

/-! ## Claim C2 (amended): contiguous id ranges rotate cyclically -/

/-- Peeling one item off a contiguous theme. -/
theorem contig_theme_cons (m k : Nat) (f : Nat → Nat) :
    contig_theme m (k + 1) f =
      (m, f 0) :: contig_theme (m + 1) k (fun i => f (i + 1)) := by
  unfold contig_theme
  rw [List.range_succ_eq_map]
  simp only [List.map_cons, List.map_map, Nat.add_zero]
  have hfun : ((fun i => (m + i, f i)) ∘ Nat.succ) =
      (fun i => (m + 1 + i, f (i + 1))) := by
    funext i
    simp only [Function.comp_apply, Prod.mk.injEq]
    exact ⟨by omega, trivial⟩
  rw [hfun]

/-- The `init` minimum-scan over a contiguous theme folds to the range
minimum. -/
theorem rot_init_contig_fold (k : Nat) :
    ∀ (m a : Nat) (f : Nat → Nat),
      (contig_theme m k f).foldl
        (fun acc p => if p.1 < acc then p.1 else acc) a = min a m := by
  induction k with
  | zero =>
    intro m a f
    have hct : contig_theme m 0 f = [(m, f 0)] := rfl
    rw [hct]
    simp only [List.foldl_cons, List.foldl_nil]
    split <;> omega
  | succ k ih =>
    intro m a f
    rw [contig_theme_cons]
    simp only [List.foldl_cons]
    rw [ih (m + 1)]
    split <;> omega

/-- `rot_init` on a contiguous theme points the cursor at the minimum. -/
theorem rot_init_contig (m k : Nat) (f : Nat → Nat) (hm : m ≤ 255) :
    rot_init (contig_theme m k f) = ⟨m, m, 0, 0, none⟩ := by
  simp only [rot_init, rot_init_contig_fold]
  have h255 : min 255 m = m := by omega
  rw [h255]

/-- Looking up an id inside the contiguous range finds that item. -/
theorem rot_find_contig_hit (k : Nat) :
    ∀ (m j : Nat) (f : Nat → Nat), j ≤ k →
      rot_find (contig_theme m k f) (m + j) = some (m + j, f j) := by
  induction k with
  | zero =>
    intro m j f hj
    have hj0 : j = 0 := by omega
    subst hj0
    have hct : contig_theme m 0 f = [(m, f 0)] := rfl
    rw [hct, rot_find, if_pos (by omega : ((m, f 0) : Nat × Nat).1 = m + 0)]
    rfl
  | succ k ih =>
    intro m j f hj
    rw [contig_theme_cons]
    cases j with
    | zero =>
      rw [rot_find, if_pos (by omega : ((m, f 0) : Nat × Nat).1 = m + 0)]
      rfl
    | succ j' =>
      rw [rot_find,
        if_neg (by show ¬(m = m + (j' + 1)); omega :
          ¬((m, f 0) : Nat × Nat).1 = m + (j' + 1))]
      have h' : m + (j' + 1) = (m + 1) + j' := by omega
      rw [h']
      exact ih (m + 1) j' (fun i => f (i + 1)) (by omega)

/-- Looking up an id above the contiguous range finds nothing. -/
theorem rot_find_contig_miss (k : Nat) :
    ∀ (m x : Nat) (f : Nat → Nat), m + k < x →
      rot_find (contig_theme m k f) x = none := by
  induction k with
  | zero =>
    intro m x f hx
    have hct : contig_theme m 0 f = [(m, f 0)] := rfl
    rw [hct, rot_find, if_neg (by show ¬(m = x); omega :
      ¬((m, f 0) : Nat × Nat).1 = x)]
    rfl
  | succ k ih =>
    intro m x f hx
    rw [contig_theme_cons, rot_find,
      if_neg (by show ¬(m = x); omega : ¬((m, f 0) : Nat × Nat).1 = x)]
    exact ih (m + 1) x (fun i => f (i + 1)) (by omega)

/-- Stepping a reduced residue: wrap at the top of the cycle, increment
below it. -/
theorem mod_succ_step (n k : Nat) :
    (n % (k + 1) = k → (n + 1) % (k + 1) = 0) ∧
    (n % (k + 1) < k → (n + 1) % (k + 1) = n % (k + 1) + 1) := by
  have h1 : (n + 1) % (k + 1) = (n % (k + 1) + 1) % (k + 1) := by
    conv_lhs => rw [← Nat.mod_add_mod]
  constructor
  · intro hk
    rw [h1, hk, Nat.mod_self]
  · intro hk
    rw [h1, Nat.mod_eq_of_lt (by omega)]

/-- Invariant run of the elapsed-tick advances over a contiguous theme
`id_min = m, …, m + k` (with `m + k ≤ 254` so the 255-wraparound branch
never fires): after `n + 1` advances the displayed ids are
`m + 0, m + 1 % (k+1), …, m + n % (k+1)` and the cursor sits one past the
residue, with the dwell set to the last displayed item's interval. -/
theorem rot_advances_contig (m k : Nat) (f : Nat → Nat)
    (hmk : m + k ≤ 254) :
    ∀ n, rot_advances (contig_theme m k f) (n + 1) =
      ((List.range (n + 1)).map (fun i => m + i % (k + 1)),
       ⟨m + n % (k + 1) + 1, m, 0, f (n % (k + 1)), some (m, f 0)⟩) := by
  intro n
  induction n with
  | zero =>
    show rot_advances (contig_theme m k f) 1 = _
    simp only [rot_advances]
    rw [rot_init_contig m k f (by omega)]
    have hfind : rot_find (contig_theme m k f) m = some (m, f 0) := by
      have h := rot_find_contig_hit k m 0 f (by omega)
      simpa using h
    have h255 : ¬(m + 1 > 255) := by omega
    have hr1 : List.range 1 = [0] := rfl
    simp [rot_pick, hfind, h255, hr1]
  | succ n ih =>
    have hjlt : n % (k + 1) < k + 1 := Nat.mod_lt n (by omega)
    have hstep : rot_advances (contig_theme m k f) (n + 1 + 1) =
        (match rot_pick (contig_theme m k f)
            (rot_advances (contig_theme m k f) (n + 1)).2 with
         | (some it, s') =>
             ((rot_advances (contig_theme m k f) (n + 1)).1 ++ [it.1], s')
         | (none, s') =>
             ((rot_advances (contig_theme m k f) (n + 1)).1, s')) := rfl
    rw [hstep, ih]
    by_cases hc : n % (k + 1) < k
    · have hfind : rot_find (contig_theme m k f) (m + n % (k + 1) + 1) =
          some (m + (n % (k + 1) + 1), f (n % (k + 1) + 1)) := by
        have h' : m + n % (k + 1) + 1 = m + (n % (k + 1) + 1) := by omega
        rw [h']
        exact rot_find_contig_hit k m (n % (k + 1) + 1) f (by omega)
      have hmod := (mod_succ_step n k).2 hc
      have hnot : ¬(m + n % (k + 1) + 1 = m) := by omega
      have h255 : ¬(m + n % (k + 1) + 1 + 1 > 255) := by omega
      have hlist : (List.range (n + 1 + 1)).map
            (fun i => m + i % (k + 1)) =
          (List.range (n + 1)).map (fun i => m + i % (k + 1)) ++
            [m + (n + 1) % (k + 1)] := by
        rw [List.range_succ, List.map_append]
        rfl
      rw [hlist, hmod]
      simp only [rot_pick, hfind]
      rw [if_neg hnot, if_neg h255]
      rfl
    · have hjk : n % (k + 1) = k := by omega
      have hfind : rot_find (contig_theme m k f)
          (m + n % (k + 1) + 1) = none :=
        rot_find_contig_miss k m (m + n % (k + 1) + 1) f (by omega)
      have hmod := (mod_succ_step n k).1 hjk
      have hlist : (List.range (n + 1 + 1)).map
            (fun i => m + i % (k + 1)) =
          (List.range (n + 1)).map (fun i => m + i % (k + 1)) ++
            [m + (n + 1) % (k + 1)] := by
        rw [List.range_succ, List.map_append]
        rfl
      rw [hlist, hmod]
      simp [rot_pick, hfind]

/-- **C2, amended.** The cyclic ascending visiting order holds only when
the candidate ids form a contiguous range `id_min, …, id_min + k` (with
`id_min + k ≤ 254`): then the `n`-th elapsed advance displays id
`id_min + (n-1) % (k+1)` — ids in ascending order, wrapping to the
minimum after the largest — and sets the dwell to that item's configured
interval.  For an id set with a gap (such as `{2,5,9}`, see the
counterexample) the manager re-displays the minimum item forever and
never visits the ids after the gap. -/
theorem C2_rotation_contiguous (m k n : Nat) (f : Nat → Nat)
    (hmk : m + k ≤ 254) :
    (rot_advances (contig_theme m k f) (n + 1)).1 =
      (List.range (n + 1)).map (fun i => m + i % (k + 1)) ∧
    ((rot_advances (contig_theme m k f) (n + 1)).2).time_out =
      f (n % (k + 1)) := by
  rw [rot_advances_contig m k f hmk n]
  exact ⟨rfl, rfl⟩

/-- Witness for the amended C2: ids {2,3,4}, four advances visit
2,3,4,2 and the dwell after the wrap is item 2's interval. -/
theorem C2_rotation_contiguous_witness :
    (rot_advances (contig_theme 2 2 (fun i => 10 * (i + 1))) 4).1 =
      [2, 3, 4, 2] ∧
    ((rot_advances (contig_theme 2 2 (fun i => 10 * (i + 1))) 4).2).time_out
      = 10 := by
  have H := C2_rotation_contiguous 2 2 3 (fun i => 10 * (i + 1))
    (by omega)
  refine ⟨?_, ?_⟩
  · rw [H.1]
    decide
  · rw [H.2]

/-! ## Claim C5: RGB565 packing -/

/-- Flattening rows of uniform width `w` gives `rows * w` elements. -/
theorem flatten_rows_length {γ : Type} (w : Nat) :
    ∀ img : List (List γ), (∀ row ∈ img, row.length = w) →
      img.flatten.length = img.length * w := by
  intro img
  induction img with
  | nil => intro _; simp
  | cons r t ih =>
    intro hr
    simp only [List.flatten_cons, List.length_append, List.length_cons]
    rw [ih (fun row hrow => hr row (List.mem_cons_of_mem _ hrow)),
      hr r (List.mem_cons_self r t)]
    ring

/-- Row-major indexing into the flattening of uniform-width rows. -/
theorem flatten_rows_getD {γ : Type} (w : Nat) (d : γ) :
    ∀ (img : List (List γ)) (i j : Nat),
      (∀ row ∈ img, row.length = w) → i < img.length → j < w →
      img.flatten.getD (i * w + j) d = (img.getD i []).getD j d := by
  intro img
  induction img with
  | nil => intro i j _ hi _; simp at hi
  | cons r t ih =>
    intro i j hr hi hj
    have hlen : r.length = w := hr r (List.mem_cons_self r t)
    cases i with
    | zero =>
      simp only [List.flatten_cons, Nat.zero_mul, Nat.zero_add]
      rw [List.getD_append r t.flatten d j (by omega)]
      rfl
    | succ i' =>
      simp only [List.length_cons] at hi
      simp only [List.flatten_cons]
      have harith : (i' + 1) * w + j = r.length + (i' * w + j) := by
        rw [hlen]; ring
      rw [harith, List.getD_append_right r t.flatten d _
        (Nat.le_add_right r.length (i' * w + j)), Nat.add_sub_cancel_left]
      exact ih i' j (fun row hrow => hr row (List.mem_cons_of_mem _ hrow))
        (by omega) hj

/-- Length of the flattening of a map whose images all have length 2. -/
theorem pairs_flatten_length {β γ : Type} (g : γ → List β)
    (h2 : ∀ x, (g x).length = 2) :
    ∀ ps : List γ, ((ps.map g).flatten).length = 2 * ps.length := by
  intro ps
  induction ps with
  | nil => simp
  | cons a t ih =>
    simp only [List.map_cons, List.flatten_cons, List.length_append,
      List.length_cons, ih, h2]
    ring

/-- Indexing into the flattening of a map whose images are byte pairs. -/
theorem pairs_flatten_getD {β γ : Type} (g : γ → List β) (d : β)
    (dg : γ) (h2 : ∀ x, (g x).length = 2) :
    ∀ (ps : List γ) (k : Nat), k < ps.length →
      ((ps.map g).flatten).getD (2 * k) d = (g (ps.getD k dg)).getD 0 d ∧
      ((ps.map g).flatten).getD (2 * k + 1) d =
        (g (ps.getD k dg)).getD 1 d := by
  intro ps
  induction ps with
  | nil => intro k hk; simp at hk
  | cons a t ih =>
    intro k hk
    cases k with
    | zero =>
      simp only [List.map_cons, List.flatten_cons, Nat.mul_zero]
      constructor
      · rw [List.getD_append _ _ d 0 (by rw [h2]; omega)]
        rfl
      · rw [List.getD_append _ _ d 1 (by rw [h2]; omega)]
        rfl
    | succ k' =>
      simp only [List.length_cons] at hk
      simp only [List.map_cons, List.flatten_cons]
      have h0 : 2 * (k' + 1) = (g a).length + 2 * k' := by rw [h2]; ring
      have h1 : 2 * (k' + 1) + 1 = (g a).length + (2 * k' + 1) := by
        rw [h2]; ring
      constructor
      · rw [h0, List.getD_append_right _ _ d _
          (Nat.le_add_right (g a).length (2 * k')), Nat.add_sub_cancel_left]
        exact (ih k' (by omega)).1
      · rw [h1, List.getD_append_right _ _ d _
          (Nat.le_add_right (g a).length (2 * k' + 1)),
          Nat.add_sub_cancel_left]
        exact (ih k' (by omega)).2

/-- **C5.** `image_to_RGB565` with little endianness packs every pixel of
the row-major raster to `((r>>3)<<11) ||| ((g>>2)<<5) ||| (b>>3)` and
serializes each 16-bit value low byte first: the output has exactly
`2 * width * height` bytes, and for the pixel in row `i`, column `j`, the
bytes at offsets `2*(i*w+j)` and `2*(i*w+j)+1` are the low and high byte
of its packed value. -/
theorem C5_rgb565_little_endian (img : List (List (Nat × Nat × Nat)))
    (w h : Nat) (hh : img.length = h) (hw : ∀ row ∈ img, row.length = w) :
    (image_to_RGB565 img true).length = 2 * (w * h) ∧
    (∀ i j, i < h → j < w →
      (image_to_RGB565 img true).getD (2 * (i * w + j)) 0 =
        rgb565 ((img.getD i []).getD j (0, 0, 0)).1
          ((img.getD i []).getD j (0, 0, 0)).2.1
          ((img.getD i []).getD j (0, 0, 0)).2.2 % 256 ∧
      (image_to_RGB565 img true).getD (2 * (i * w + j) + 1) 0 =
        rgb565 ((img.getD i []).getD j (0, 0, 0)).1
          ((img.getD i []).getD j (0, 0, 0)).2.1
          ((img.getD i []).getD j (0, 0, 0)).2.2 / 256 % 256) := by
  subst hh
  have hpb : image_to_RGB565 img true =
      ((img.flatten).map (fun p => packU16LE (rgb565 p.1 p.2.1 p.2.2))).flatten := by
    simp [image_to_RGB565]
  have h2 : ∀ p : Nat × Nat × Nat,
      (packU16LE (rgb565 p.1 p.2.1 p.2.2)).length = 2 := fun _ => rfl
  have hflen : img.flatten.length = img.length * w :=
    flatten_rows_length w img hw
  constructor
  · rw [hpb, pairs_flatten_length _ h2, hflen]
    ring
  · intro i j hi hj
    have hk : i * w + j < img.flatten.length := by
      rw [hflen]
      have h1 : i * w + j < (i + 1) * w := by
        have : i * w + j < i * w + w := by omega
        calc i * w + j < i * w + w := this
          _ = (i + 1) * w := by ring
      have h2' : (i + 1) * w ≤ img.length * w :=
        Nat.mul_le_mul_right w (by omega)
      omega
    have hbytes := pairs_flatten_getD
      (fun p : Nat × Nat × Nat => packU16LE (rgb565 p.1 p.2.1 p.2.2))
      (0 : Nat) ((0, 0, 0) : Nat × Nat × Nat) h2
      img.flatten (i * w + j) hk
    have hrow := flatten_rows_getD w ((0, 0, 0) : Nat × Nat × Nat)
      img i j hw hi hj
    rw [hpb]
    rw [hrow] at hbytes
    exact hbytes

/-- Witness for C5 on a 2×2 image. -/
theorem C5_rgb565_little_endian_witness :
    (image_to_RGB565 [[(255, 128, 7), (0, 255, 0)], [(1, 2, 3), (9, 9, 9)]]
        true).length = 2 * (2 * 2) ∧
    (image_to_RGB565 [[(255, 128, 7), (0, 255, 0)], [(1, 2, 3), (9, 9, 9)]]
        true).getD (2 * (1 * 2 + 0)) 0 = rgb565 1 2 3 % 256 := by
  have H := C5_rgb565_little_endian
    [[(255, 128, 7), (0, 255, 0)], [(1, 2, 3), (9, 9, 9)]] 2 2 rfl
    (by
      intro row hrow
      rw [List.mem_cons] at hrow
      rcases hrow with hcase | hrow
      · subst hcase; rfl
      · rw [List.mem_cons] at hrow
        rcases hrow with hcase | hcase
        · subst hcase; rfl
        · simp at hcase)
  exact ⟨H.1, (H.2 1 0 (by omega) (by omega)).1⟩

/-! ## Claim C4: compressed chunk framing -/

/-- The chunk slices reassemble to the original byte stream. -/
theorem chunked_flatten (sz : Nat) (hsz : sz ≠ 0) :
    ∀ data : List Nat, (chunked data sz).flatten = data := by
  have H : ∀ (n : Nat) (data : List Nat), data.length ≤ n →
      (chunked data sz).flatten = data := by
    intro n
    induction n with
    | zero =>
      intro data hlen
      have hd : data = [] := by
        cases data with
        | nil => rfl
        | cons a l => simp at hlen
      subst hd
      rw [chunked, dif_pos (Or.inr rfl)]
      rfl
    | succ n ih =>
      intro data hlen
      by_cases hd : data = []
      · subst hd
        rw [chunked, dif_pos (Or.inr rfl)]
        rfl
      · rw [chunked, dif_neg (by simp [hsz, hd])]
        simp only [List.flatten_cons]
        have hpos : 0 < data.length := List.length_pos.mpr hd
        rw [ih (data.drop sz) (by simp only [List.length_drop]; omega)]
        exact List.take_append_drop sz data
  intro data
  exact H data.length data le_rfl

/-- Every chunk is nonempty and at most the chunk size. -/
theorem chunked_mem_bounds (sz : Nat) (hsz : sz ≠ 0) :
    ∀ data : List Nat, ∀ c ∈ chunked data sz,
      c.length ≤ sz ∧ c ≠ [] := by
  have H : ∀ (n : Nat) (data : List Nat), data.length ≤ n →
      ∀ c ∈ chunked data sz, c.length ≤ sz ∧ c ≠ [] := by
    intro n
    induction n with
    | zero =>
      intro data hlen c hc
      have hd : data = [] := by
        cases data with
        | nil => rfl
        | cons a l => simp at hlen
      subst hd
      rw [chunked, dif_pos (Or.inr rfl)] at hc
      simp at hc
    | succ n ih =>
      intro data hlen c hc
      by_cases hd : data = []
      · subst hd
        rw [chunked, dif_pos (Or.inr rfl)] at hc
        simp at hc
      · rw [chunked, dif_neg (by simp [hsz, hd])] at hc
        have hpos : 0 < data.length := List.length_pos.mpr hd
        rcases List.mem_cons.mp hc with hc1 | hc2
        · subst hc1
          constructor
          · rw [List.length_take]
            omega
          · intro hnil
            have hlt := congrArg List.length hnil
            rw [List.length_take] at hlt
            simp only [List.length_nil] at hlt
            omega
        · exact ih (data.drop sz) (by simp only [List.length_drop]; omega)
            c hc2
  intro data
  exact H data.length data le_rfl

/-- The explicit byte layout of one compressed chunk frame. -/
theorem fastlz_frame_bytes (compress : List Nat → List Nat)
    (c : List Nat) :
    fastlz_chunk_frame compress c =
      c.length % 256 :: c.length / 256 % 256 ::
      ((compress c).drop 4).length % 256 ::
      ((compress c).drop 4).length / 256 % 256 ::
      (compress c).drop 4 := rfl

/-- A 16-bit value below 65536 round-trips through the packed pair. -/
theorem decode_pack (a : Nat) (ha : a ≤ 65535) :
    decodeU16LE (a % 256) (a / 256 % 256) = a := by
  unfold decodeU16LE
  omega

/-- **C4.** In the compressed path of `show_bitmap` (image within the
device bounds, `use_fastlz = true`), the RGB565 stream is split into
chunks of `dev_width * 4` bytes whose concatenation is the whole stream;
after the bitmap header, each wire write is one chunk frame: a 4-byte
header packing `(uncompressed_len, compressed_len)` as two little-endian
unsigned 16-bit integers, followed by exactly `compressed_len` bytes of
compressor output with its own 4-byte prefix stripped, where
`uncompressed_len` is the chunk's original length. -/
theorem C4_compressed_chunk_framing (dev_width dev_height xs ys : Nat)
    (img : List (List (Nat × Nat × Nat)))
    (compress : List Nat → List Nat)
    (hfith : img.length ≤ dev_height)
    (hfitw : (img.headD []).length ≤ dev_width)
    (hw : dev_width ≠ 0)
    (hchunk : dev_width * 4 ≤ 65535)
    (hcomp : ∀ c ∈ chunked (image_to_RGB565 img true) (dev_width * 4),
        ((compress c).drop 4).length ≤ 65535) :
    show_bitmap dev_width dev_height xs ys img true compress =
      some (bitmap_header 0x15 xs ys ((img.headD []).length + xs - 1)
              (img.length + ys - 1) ::
            (chunked (image_to_RGB565 img true) (dev_width * 4)).map
              (fastlz_chunk_frame compress)) ∧
    (chunked (image_to_RGB565 img true) (dev_width * 4)).flatten =
      image_to_RGB565 img true ∧
    (∀ c ∈ chunked (image_to_RGB565 img true) (dev_width * 4),
      c.length ≤ dev_width * 4 ∧ c ≠ [] ∧
      decodeU16LE ((fastlz_chunk_frame compress c).getD 0 0)
          ((fastlz_chunk_frame compress c).getD 1 0) = c.length ∧
      decodeU16LE ((fastlz_chunk_frame compress c).getD 2 0)
          ((fastlz_chunk_frame compress c).getD 3 0) =
        ((compress c).drop 4).length ∧
      (fastlz_chunk_frame compress c).drop 4 = (compress c).drop 4 ∧
      (fastlz_chunk_frame compress c).length =
        4 + ((compress c).drop 4).length) := by
  refine ⟨?_, chunked_flatten (dev_width * 4) (by omega) _, ?_⟩
  · rw [show_bitmap]
    rw [if_neg (by omega)]
    rw [if_pos rfl]
  · intro c hc
    have hb := chunked_mem_bounds (dev_width * 4) (by omega) _ c hc
    refine ⟨hb.1, hb.2, ?_, ?_, ?_, ?_⟩
    · rw [fastlz_frame_bytes]
      exact decode_pack c.length (by omega)
    · rw [fastlz_frame_bytes]
      exact decode_pack ((compress c).drop 4).length (hcomp c hc)
    · rw [fastlz_frame_bytes]
      rfl
    · rw [fastlz_frame_bytes]
      simp only [List.length_cons]
      omega

/-- Witness for C4: a 1×1 red pixel on a width-1 device with a prefix-only
toy compressor; the single chunk `[0, 248]` frames as
`[2, 0, 2, 0, 0, 248]`. -/
theorem C4_compressed_chunk_framing_witness :
    show_bitmap 1 480 10 20 [[(255, 0, 0)]] true
        (fun c => [0, 0, 0, 0] ++ c) =
      some [[0x15, 10, 0, 20, 0, 10, 0, 20, 0, 10],
            [2, 0, 2, 0, 0, 248]] ∧
    decodeU16LE
        ((fastlz_chunk_frame (fun c => [0, 0, 0, 0] ++ c) [0, 248]).getD
          0 0)
        ((fastlz_chunk_frame (fun c => [0, 0, 0, 0] ++ c) [0, 248]).getD
          1 0) = 2 := by
  have hchunks : chunked (image_to_RGB565 [[(255, 0, 0)]] true) (1 * 4) =
      [[0, 248]] := by
    have him : image_to_RGB565 [[(255, 0, 0)]] true = [0, 248] := rfl
    rw [him]
    rw [chunked, dif_neg (by simp)]
    rw [chunked, dif_pos (show (1 * 4 = 0 ∨
      List.drop (1 * 4) [0, 248] = ([] : List Nat)) from Or.inr rfl)]
    rfl
  have H := C4_compressed_chunk_framing 1 480 10 20 [[(255, 0, 0)]]
    (fun c => [0, 0, 0, 0] ++ c) (by decide) (by decide) (by omega)
    (by omega)
    (by
      rw [hchunks]
      intro c hc
      rw [List.mem_singleton] at hc
      subst hc
      simp)
  constructor
  · rw [H.1, hchunks]
    rfl
  · have hmem : [0, 248] ∈
        chunked (image_to_RGB565 [[(255, 0, 0)]] true) (1 * 4) := by
      rw [hchunks]
      exact List.mem_singleton.mpr rfl
    exact (H.2.2 [0, 248] hmem).2.2.1
